import Mathlib

/-!
Shallow embedding of the GUI-notator application (src/main.py) and proofs
about its specification claims.

Python strings are modelled as lists of Unicode scalar values (Lean `Char`),
Python exceptions as an explicit error component of type `Option PyErr`
paired with the state at the point where the exception escaped the handler.
The Tk widget layer is modelled only through the state it stores (entry
contents, pack visibility, label texts as an inductive `Status`).
-/

set_option maxHeartbeats 1000000

/-- Python `str` modelled as a list of Unicode scalar values. -/
abbrev Str := List Char

/-- Python exceptions that the modelled code paths can raise. -/
inductive PyErr where
  | typeError
  | fileNotFound
  | indexError
  | keyError
  deriving DecidableEq

/-- ASCII whitespace as recognised by Python `str.split()` / `str.strip()`
(space, tab, newline, carriage return, vertical tab, form feed). -/
def pySpace (c : Char) : Bool :=
  c = ' ' || c = '\t' || c = '\n' || c = '\r' || c.toNat = 11 || c.toNat = 12

/-- Helper for `wordCount`: counts maximal runs of non-space characters.
The flag records whether we are currently inside a word. -/
def wcAux : Bool → Str → Nat
  | _, [] => 0
  | inWord, c :: rest =>
    if pySpace c then wcAux false rest
    else (if inWord then 0 else 1) + wcAux true rest

/-- `len(line.split())` from `HaikuFrame._validate` (src/main.py:84): the
number of whitespace-delimited non-empty tokens of a line. -/
def wordCount (s : Str) : Nat := wcAux false s

/-- The validity test of `HaikuFrame._validate` (src/main.py:85):
word counts in [3,5], [4,7], [3,5] for the three entry lines. -/
def haikuValidB (l1 l2 l3 : Str) : Bool :=
  (3 ≤ wordCount l1 && wordCount l1 ≤ 5)
    && (4 ≤ wordCount l2 && wordCount l2 ≤ 7)
    && (3 ≤ wordCount l3 && wordCount l3 ≤ 5)

/-- `line.strip()` is falsy exactly when every character is whitespace. -/
def isBlankLine (l : Str) : Bool := l.all pySpace

/-- Python `line.rstrip()`: drop trailing whitespace. -/
def rstrip (l : Str) : Str := (l.reverse.dropWhile pySpace).reverse

/-- The grouping of `GUINotator._load_haiku_lines` (src/main.py:177):
`for i in range(0, len(lines), 3): lines[i:i+3]`.  Notice that a final
slice of one or two lines is still appended. -/
def chunk3 : List Str → List (List Str)
  | [] => []
  | a :: b :: c :: rest => [a, b, c] :: chunk3 rest
  | xs => [xs]

/-- The line preprocessing of `_load_haiku_lines` (src/main.py:175):
keep lines whose `strip()` is non-empty, each `rstrip()`ed. -/
def haikuSourceLines (raw : List Str) : List Str :=
  (raw.filter (fun l => !isBlankLine l)).map rstrip

/-- `GUINotator._load_haiku_lines` (src/main.py:171-179) applied to the
lines of the haiku resource file: preprocess, slice in steps of three,
join each slice with a newline. -/
def load_haiku_lines (raw : List Str) : List Str :=
  (chunk3 (haikuSourceLines raw)).map (List.intercalate ['\n'])

/-! ### JSON, as used by `json.dump` / `json.load` for the session file.

The session state is a JSON array of filename strings.  We model the part
of Python json needed here: values are strings, numbers, booleans, null
and (nested) arrays; objects are not modelled (no claim depends on them).
Numbers keep only their integer part, which is all the application can
observe (any number makes the startup loop raise `TypeError`). -/

/-- JSON values produced by the modelled `json.load`. -/
inductive JVal where
  | jnull
  | jbool (b : Bool)
  | jnum (n : Int)
  | jstr (s : Str)
  | jarr (xs : List JVal)

/-- Lowercase hex digit, as emitted by the json encoder. -/
def hexDigitChar (n : Nat) : Char :=
  match n with
  | 0 => '0' | 1 => '1' | 2 => '2' | 3 => '3' | 4 => '4'
  | 5 => '5' | 6 => '6' | 7 => '7' | 8 => '8' | 9 => '9'
  | 10 => 'a' | 11 => 'b' | 12 => 'c' | 13 => 'd' | 14 => 'e'
  | _ => 'f'

/-- Four lowercase hex digits of `n % 0x10000`, the payload of a json
unicode escape. -/
def hex4 (n : Nat) : Str :=
  [hexDigitChar (n / 4096 % 16), hexDigitChar (n / 256 % 16),
   hexDigitChar (n / 16 % 16), hexDigitChar (n % 16)]

/-- Escaping of one character by `json.dump` with its default
`ensure_ascii=True`: quote and backslash get two-character escapes, the
common control characters get their short escapes, remaining characters
outside the printable ASCII range 0x20-0x7e get unicode escapes, with a
surrogate pair for scalar values above 0xffff. -/
def escChar (c : Char) : Str :=
  if c = '"' then ['\\', '"']
  else if c = '\\' then ['\\', '\\']
  else if c = '\n' then ['\\', 'n']
  else if c = '\t' then ['\\', 't']
  else if c = '\r' then ['\\', 'r']
  else if c.toNat = 8 then ['\\', 'b']
  else if c.toNat = 12 then ['\\', 'f']
  else if c.toNat < 0x20 ∨ (0x7f ≤ c.toNat ∧ c.toNat ≤ 0xffff) then
    '\\' :: 'u' :: hex4 c.toNat
  else if 0x10000 ≤ c.toNat then
    ('\\' :: 'u' :: hex4 (0xd800 + (c.toNat - 0x10000) / 0x400))
      ++ ('\\' :: 'u' :: hex4 (0xdc00 + (c.toNat - 0x10000) % 0x400))
  else [c]

/-- The body of a json string literal: each character escaped. -/
def encStrBody : Str → Str
  | [] => []
  | c :: s => escChar c ++ encStrBody s

/-- A json string literal, quotes included. -/
def encString (s : Str) : Str := '"' :: encStrBody s ++ ['"']

/-- Elements of a dumped json array, separated by `json.dump`'s default
item separator (a comma and a space). -/
def encElems : List Str → Str
  | [] => []
  | [x] => encString x
  | x :: xs => encString x ++ ',' :: ' ' :: encElems xs

/-- `json.dump(files, f)` from `GUINotator.on_close` (src/main.py:365)
for a list of strings: the exact character sequence written to the
session state file. -/
def json_dump_strlist (xs : List Str) : Str :=
  '[' :: encElems xs ++ [']']

/-- Numeric value of a hex digit accepted in a json unicode escape. -/
def hexVal (c : Char) : Option Nat :=
  if 48 ≤ c.toNat ∧ c.toNat ≤ 57 then some (c.toNat - 48)
  else if 97 ≤ c.toNat ∧ c.toNat ≤ 102 then some (c.toNat - 87)
  else if 65 ≤ c.toNat ∧ c.toNat ≤ 70 then some (c.toNat - 55)
  else none

/-- Decoding of a two-character escape in a json string. -/
def decodeEsc (k : Char) : Option Char :=
  if k = '"' then some '"'
  else if k = '\\' then some '\\'
  else if k = '/' then some '/'
  else if k = 'n' then some '\n'
  else if k = 't' then some '\t'
  else if k = 'r' then some '\r'
  else if k = 'b' then some (Char.ofNat 8)
  else if k = 'f' then some (Char.ofNat 12)
  else none

/-- Four hex digits: their value and the rest of the input. -/
def parseHex4 (s : Str) : Option (Nat × Str) :=
  match s with
  | c1 :: c2 :: c3 :: c4 :: rest =>
    match hexVal c1, hexVal c2, hexVal c3, hexVal c4 with
    | some a, some b, some d, some e => some ((((a * 16 + b) * 16 + d) * 16 + e), rest)
    | _, _, _, _ => none
  | _ => none

/-- Decoding of a json unicode escape after the backslash-u prefix:
four hex digits, and when they form a high surrogate, a second escaped
low surrogate that combines with it into one scalar value (as Python
json does).  A lone surrogate escape, which Python would turn into a
lone-surrogate `str`, has no `Char` counterpart and is rejected.
Returns the decoded character and how many input characters it used. -/
def parseU (s : Str) : Option (Char × Nat) :=
  match parseHex4 s with
  | some (n, rest) =>
    if n < 0xd800 ∨ 0xe000 ≤ n then some (Char.ofNat n, 4)
    else if n ≤ 0xdbff then
      match rest with
      | b1 :: b2 :: rest2 =>
        if b1 = '\\' then
          if b2 = 'u' then
            match parseHex4 rest2 with
            | some (m, _) =>
              if 0xdc00 ≤ m ∧ m ≤ 0xdfff then
                some (Char.ofNat (0x10000 + (n - 0xd800) * 0x400 + (m - 0xdc00)), 10)
              else none
            | none => none
          else none
        else none
      | _ => none
    else none
  | none => none

/-- Parser for the body of a json string literal (after the opening
quote), strict mode as in Python: raw control characters below 0x20 are
rejected and escapes are decoded via `decodeEsc` and `parseU`.
Returns the decoded string and the rest of the input. -/
def parseStrBody : Str → Option (Str × Str)
  | [] => none
  | c :: rest =>
    if c = '"' then some ([], rest)
    else if c = '\\' then
      match rest with
      | [] => none
      | k :: rest2 =>
        if k = 'u' then
          match parseU rest2 with
          | some (ch, used) =>
            (parseStrBody (rest2.drop used)).map (fun p => (ch :: p.1, p.2))
          | none => none
        else
          match decodeEsc k with
          | some ch => (parseStrBody rest2).map (fun p => (ch :: p.1, p.2))
          | none => none
    else if 0x20 ≤ c.toNat then
      (parseStrBody rest).map (fun p => (c :: p.1, p.2))
    else none
termination_by s => s.length
decreasing_by
  · simp only [List.length_cons, List.length_drop]
    omega
  · simp only [List.length_cons]
    omega
  · simp only [List.length_cons]
    omega

/-- json whitespace (space, tab, newline, carriage return). -/
def jsonWs (c : Char) : Bool :=
  c = ' ' || c = '\t' || c = '\n' || c = '\r'

/-- Skip json whitespace. -/
def skipWs (s : Str) : Str := s.dropWhile jsonWs

/-- Is the character an ASCII digit? -/
def isDigitB (c : Char) : Bool := 48 ≤ c.toNat && c.toNat ≤ 57

/-- Accumulate a run of decimal digits. -/
def parseDigitsAux : Str → Nat → Nat × Str
  | [], acc => (acc, [])
  | c :: r, acc =>
    if isDigitB c then parseDigitsAux r (10 * acc + (c.toNat - 48))
    else (acc, c :: r)

/-- At least one decimal digit, returning its value and the rest. -/
def parseDigits1 : Str → Option (Nat × Str)
  | [] => none
  | c :: r =>
    if isDigitB c then some (parseDigitsAux r (c.toNat - 48)) else none

/-- Optional fraction part of a json number (consumed, value dropped). -/
def parseFracOpt : Str → Option Str
  | '.' :: r => (parseDigits1 r).map (fun p => p.2)
  | s => some s

/-- Optional exponent part of a json number (consumed, value dropped). -/
def parseExpOpt : Str → Option Str
  | [] => some []
  | c :: r =>
    if c = 'e' ∨ c = 'E' then
      let r2 := match r with
        | '+' :: t => t
        | '-' :: t => t
        | t => t
      (parseDigits1 r2).map (fun p => p.2)
    else some (c :: r)

/-- A json number.  Only the integer part is retained; a fraction or
exponent is consumed but dropped (the application treats every number the
same way: iterating over it raises `TypeError`).  The leading-zero
restriction of the json grammar is not enforced (the model accepts
slightly more than Python there). -/
def parseNum (s : Str) : Option (JVal × Str) :=
  let signed : Bool × Str := match s with
    | '-' :: r => (true, r)
    | _ => (false, s)
  match parseDigits1 signed.2 with
  | none => none
  | some (n, r1) =>
    match parseFracOpt r1 with
    | none => none
    | some r2 =>
      match parseExpOpt r2 with
      | none => none
      | some r3 =>
        some (JVal.jnum (if signed.1 then -(n : Int) else (n : Int)), r3)

/-- Non-recursive json values: literals and numbers, including the
non-standard `NaN` / `Infinity` / `-Infinity` accepted by Python. -/
def parseAtom : Str → Option (JVal × Str)
  | 't' :: 'r' :: 'u' :: 'e' :: r => some (JVal.jbool true, r)
  | 'f' :: 'a' :: 'l' :: 's' :: 'e' :: r => some (JVal.jbool false, r)
  | 'n' :: 'u' :: 'l' :: 'l' :: r => some (JVal.jnull, r)
  | 'N' :: 'a' :: 'N' :: r => some (JVal.jnum 0, r)
  | 'I' :: 'n' :: 'f' :: 'i' :: 'n' :: 'i' :: 't' :: 'y' :: r => some (JVal.jnum 0, r)
  | '-' :: 'I' :: 'n' :: 'f' :: 'i' :: 'n' :: 'i' :: 't' :: 'y' :: r => some (JVal.jnum 0, r)
  | s => parseNum s

mutual

/-- Fuelled recursive-descent parser for a json value.  The fuel only
bounds the recursion (one unit per array element and nesting level); the
top-level entry point `json_load` supplies enough for any input. -/
def parseJVal : Nat → Str → Option (JVal × Str)
  | 0, _ => none
  | _ + 1, [] => none
  | fuel + 1, c :: rest =>
    if c = '"' then (parseStrBody rest).map (fun p => (JVal.jstr p.1, p.2))
    else if c = '[' then
      match skipWs rest with
      | ']' :: r2 => some (JVal.jarr [], r2)
      | r2 => (parseLoop fuel r2).map (fun p => (JVal.jarr p.1, p.2))
    else parseAtom (c :: rest)

/-- Elements of a non-empty json array: value, then either a comma and
more elements or the closing bracket. -/
def parseLoop : Nat → Str → Option (List JVal × Str)
  | 0, _ => none
  | fuel + 1, s =>
    match parseJVal fuel s with
    | none => none
    | some (v, r) =>
      match skipWs r with
      | ',' :: r2 => (parseLoop fuel (skipWs r2)).map (fun p => (v :: p.1, p.2))
      | ']' :: r2 => some ([v], r2)
      | _ => none

end

/-- `json.load(f)` from `GUINotator._load_tabs` (src/main.py:342): parse
the whole session file; `none` models the `ValueError` a malformed file
raises (caught by the surrounding `except`). -/
def json_load (s : Str) : Option JVal :=
  match parseJVal (2 * s.length + 2) (skipWs s) with
  | some (v, r) => if skipWs r = [] then some v else none
  | none => none

/-- Python iteration over the parsed session value, as done by
`for fname in files` (src/main.py:347): a list yields its elements, a
string yields its characters as one-character strings, and any
non-iterable value (number, boolean, None) raises `TypeError`. -/
def valueIter : JVal → Except PyErr (List JVal)
  | JVal.jarr xs => Except.ok xs
  | JVal.jstr s => Except.ok (s.map (fun c => JVal.jstr [c]))
  | _ => Except.error PyErr.typeError

/-! ### The application state (class `GUINotator` with its widgets). -/

/-- One notebook tab: the `NoteText` widget's optional backing filename
(src/main.py:35) and its buffer text.  The buffer text is the text the
user typed or that was inserted at creation; the Tk `Text` widget's
phantom final newline is added by `text_get_end` when the buffer is read
out with `get("1.0", tk.END)`. -/
structure Tab where
  filename : Option Str
  content : Str
  deriving DecidableEq

/-- The texts the application writes into its status bar and into the
haiku frame message label, as an enumeration. -/
inductive Status where
  | blank
  | fileDeleted
  | timerFinished
  | saved (fn : Str)
  deriving DecidableEq

/-- The mutable state of `GUINotator`, including the filesystem contents
of the data directory (`fs`, an association of basenames to file
contents) and the outstanding `after` callbacks of the Tk event loop
(`pendingTicks`, the number of scheduled `_tick_timer` invocations).
`finishedCount` instruments the model: it counts executions of the
timer-finished branch so that it can be proved to run exactly once. -/
structure AppState where
  tabs : List Tab
  sel : Option Nat
  fs : List (Str × Str)
  status : Status
  frameVisible : Bool
  resultShown : Bool
  okEnabled : Bool
  message : Str
  e1 : Str
  e2 : Str
  e3 : Str
  pending : Option Tab
  haikuLines : List Str
  haikuIndex : Nat
  remaining : Int
  pendingTicks : Nat
  finishedCount : Nat
  deriving DecidableEq

/-- Look up a file of the data directory by basename. -/
def fsLookup (fs : List (Str × Str)) (fn : Str) : Option Str :=
  match fs with
  | [] => none
  | p :: rest => if p.1 = fn then some p.2 else fsLookup rest fn

/-- `os.remove`: the file is gone afterwards. -/
def fsErase (fs : List (Str × Str)) (fn : Str) : List (Str × Str) :=
  match fs with
  | [] => []
  | p :: rest => if p.1 = fn then fsErase rest fn else p :: fsErase rest fn

/-- Writing a file: replaces any previous content under that name. -/
def fsSet (fs : List (Str × Str)) (fn : Str) (v : Str) : List (Str × Str) :=
  (fn, v) :: fsErase fs fn

/-- `GUINotator._current_text` (src/main.py:181-183): the `NoteText` of
the selected tab, or nothing when the notebook has no selection (in which
case the Python code would raise out of `nametowidget`). -/
def current_text (s : AppState) : Option Tab :=
  match s.sel with
  | none => none
  | some i => s.tabs.get? i

/-- `GUINotator.new_tab` (src/main.py:186-198): append a tab holding a
fresh `NoteText` with the given filename and content, and select it. -/
def new_tab (s : AppState) (fn : Option Str) (content : Str) : AppState :=
  { s with tabs := s.tabs ++ [{ filename := fn, content := content }],
           sel := some s.tabs.length }

/-- `GUINotator.close_tab` (src/main.py:200-203): forget the selected tab
if there is one.  Tk then selects an adjacent tab; we model its choice as
the same index clamped to the shortened list, or no selection when the
notebook became empty.  No replacement tab is created here. -/
def close_tab (s : AppState) : AppState :=
  match s.sel with
  | none => s
  | some i =>
    let t := s.tabs.eraseIdx i
    { s with tabs := t,
             sel := if t.isEmpty then none else some (min i (t.length - 1)) }

/-- `HaikuFrame._validate` (src/main.py:83-86): recompute the word-count
validity of the three entry lines and enable or disable the submit
button accordingly.  This is the only place the bounds are checked. -/
def validate (s : AppState) : AppState :=
  { s with okEnabled := haikuValidB s.e1 s.e2 s.e3 }

/-- `HaikuFrame.hide` (src/main.py:78-81): unpack the frame. -/
def hide_frame (s : AppState) : AppState :=
  { s with frameVisible := false }

/-- `HaikuFrame.show_result` (src/main.py:93-98): display the submitted
haiku in the message label and re-show the frame with only the close
button. -/
def show_result (s : AppState) (haiku : List Str) : AppState :=
  { s with message := List.intercalate ['\n'] haiku,
           resultShown := true, frameVisible := true }

/-- `GUINotator.start_delete` (src/main.py:281-287): remember the current
`NoteText` as the pending delete target, show the haiku frame with the
prompt `haiku_lines[haiku_index]`, then advance the cursor by 1 modulo
`max 1 len`.  When the bank is empty the subscript raises `IndexError`
before the guarded modulus is ever reached; `pending` has already been
assigned at that point. -/
def start_delete (s : AppState) : AppState × Option PyErr :=
  match current_text s with
  | none => (s, some PyErr.keyError)
  | some t =>
    match t.filename with
    | none => (s, none)
    | some _ =>
      let s1 := { s with pending := some t }
      match s1.haikuLines.get? s1.haikuIndex with
      | none => (s1, some PyErr.indexError)
      | some prompt =>
        ({ s1 with message := prompt, e1 := [], e2 := [], e3 := [],
                   okEnabled := false, frameVisible := true,
                   haikuIndex := (s1.haikuIndex + 1) % max 1 s1.haikuLines.length },
         none)

/-- `GUINotator._confirm_delete` (src/main.py:289-296): take the pending
target; if it has a filename, `os.remove` its backing file (raising
`FileNotFoundError` when the file does not exist — there is no
try/except, so the exception escapes with no state mutated), then close
the currently selected tab, set the status, and show the result. -/
def confirm_delete (s : AppState) (haiku : List Str) : AppState × Option PyErr :=
  match s.pending with
  | none => (s, none)
  | some t =>
    match t.filename with
    | none => (s, none)
    | some fn =>
      match fsLookup s.fs fn with
      | none => (s, some PyErr.fileNotFound)
      | some _ =>
        let s1 := { s with fs := fsErase s.fs fn }
        let s2 := close_tab s1
        let s3 := { s2 with status := Status.fileDeleted }
        (show_result s3 haiku, none)

/-- `HaikuFrame._submit` (src/main.py:88-91): read the three entries,
hide the frame and hand the lines to the confirm callback.  No validity
check happens here. -/
def submit (s : AppState) : AppState × Option PyErr :=
  confirm_delete (hide_frame s) [s.e1, s.e2, s.e3]

/-- Tk `Text.get("1.0", tk.END)`: buffer contents plus the widget's
always-present final newline. -/
def text_get_end (t : Tab) : Str := t.content ++ ['\n']

/-- `GUINotator.save` (src/main.py:216-227): write the current buffer
(including the phantom final newline) to the data directory under the
tab's filename.  A tab with no filename goes through the `save_as` file
dialog instead, which is view territory and not modelled. -/
def save_op (s : AppState) : AppState × Option PyErr :=
  match current_text s with
  | none => (s, some PyErr.keyError)
  | some t =>
    match t.filename with
    | none => (s, none)
    | some fn =>
      ({ s with fs := fsSet s.fs fn (text_get_end t),
                status := Status.saved fn }, none)

/-- `GUINotator.open_file` (src/main.py:242-252) after the file dialog
produced a path with the given basename: read the file and open it in a
new tab. -/
def open_file (s : AppState) (fn : Str) : AppState × Option PyErr :=
  match fsLookup s.fs fn with
  | none => (s, some PyErr.fileNotFound)
  | some c => (new_tab s (some fn) c, none)

/-- The loop body of `GUINotator._load_tabs` (src/main.py:347-352):
iterate over the parsed session value; a string element names a file to
reopen (skipped when the file no longer exists), any non-string element
makes `os.path.join` raise `TypeError`, keeping the tabs opened so far. -/
def restore_loop (s : AppState) : List JVal → AppState × Option PyErr
  | [] => (s, none)
  | v :: vs =>
    match v with
    | JVal.jstr fn =>
      match fsLookup s.fs fn with
      | some c => restore_loop (new_tab s (some fn) c) vs
      | none => restore_loop s vs
    | _ => (s, some PyErr.typeError)

/-- `GUINotator._load_tabs` (src/main.py:338-354): read the session
state file (`none` models a missing file, a parse failure is caught and
treated as the empty list), reopen the listed files that still exist, and
finish by creating one blank tab when the notebook ended up empty. -/
def load_tabs (storage : Option Str) (s : AppState) : AppState × Option PyErr :=
  let filesv : JVal :=
    match storage with
    | none => JVal.jarr []
    | some content =>
      match json_load content with
      | some v => v
      | none => JVal.jarr []
  match valueIter filesv with
  | Except.error e => (s, some e)
  | Except.ok vs =>
    match restore_loop s vs with
    | (s1, some e) => (s1, some e)
    | (s1, none) =>
      (if s1.tabs.isEmpty then new_tab s1 none [] else s1, none)

/-- `GUINotator.on_close` (src/main.py:356-366): the character sequence
written to the session state file — the json dump of the filenames of
all tabs that have one, in notebook order. -/
def on_close_record (s : AppState) : Str :=
  json_dump_strlist (s.tabs.filterMap Tab.filename)

/-! ### Timer (`set_timer`, `_tick_timer`). -/

/-- The body of `GUINotator._tick_timer` (src/main.py:306-313): when the
countdown has reached zero, report the finished status and stop (no
reschedule); otherwise decrement and schedule another invocation via
`self.after(1000, ...)` (one more pending tick). -/
def tick_timer (s : AppState) : AppState :=
  if s.remaining ≤ 0 then
    { s with status := Status.timerFinished,
             finishedCount := s.finishedCount + 1 }
  else
    { s with remaining := s.remaining - 1,
             pendingTicks := s.pendingTicks + 1 }

/-- The Tk event loop firing one scheduled `_tick_timer` callback: one
pending tick is consumed, then the body runs.  With nothing scheduled
there is nothing to fire. -/
def fire_tick (s : AppState) : AppState :=
  match s.pendingTicks with
  | 0 => s
  | k + 1 => tick_timer { s with pendingTicks := k }

/-- Starting the countdown at a given number of seconds: assign
`self.remaining` and invoke `_tick_timer` once synchronously, exactly as
`set_timer` does after the minutes dialog.  Nothing cancels a previously
scheduled callback. -/
def start_ticking (sec : Int) (s : AppState) : AppState :=
  tick_timer { s with remaining := sec }

/-- `GUINotator.set_timer` (src/main.py:299-304): ask for minutes (the
dialog enforces at least 1; `if not minutes` returns on cancel), then
start ticking at `minutes * 60` seconds. -/
def set_timer (minutes : Nat) (s : AppState) : AppState :=
  if minutes = 0 then s else start_ticking (60 * minutes) s

/-- The event loop firing scheduled ticks a number of times in sequence. -/
def fires : Nat → AppState → AppState
  | 0, s => s
  | k + 1, s => fires k (fire_tick s)

/-! ### Concrete states used by the concrete-input theorems. -/

/-- A freshly constructed `GUINotator` before `_load_tabs` ran: no tabs,
empty data directory, empty banks, timer idle. -/
def app0 : AppState :=
  { tabs := [], sel := none, fs := [], status := Status.blank,
    frameVisible := false, resultShown := false, okEnabled := false,
    message := [], e1 := [], e2 := [], e3 := [], pending := none,
    haikuLines := [], haikuIndex := 0, remaining := 0, pendingTicks := 0,
    finishedCount := 0 }

/-- A state with one tab backed by the existing file x.txt and an empty
haiku bank (the haiku resource file is missing). -/
def c8state : AppState :=
  { app0 with
    tabs := [{ filename := some ("x.txt".toList), content := "hi".toList }],
    sel := some 0,
    fs := [(("x.txt".toList), "hi\n".toList)] }

/-- C8 (code_bug): with an empty haiku bank, requesting the delete prompt
does not act as a placeholder or no-op — `start_delete` subscripts
`haiku_lines[haiku_index]` on the empty list and raises `IndexError`.
The guarded modulus `% max(1, len(...))` on the next source line shows
the empty bank was meant to be handled, but the subscript on the line
before it fires first. -/
theorem c8_empty_bank_raises :
    (start_delete c8state).2 = some PyErr.indexError := by rfl

/-- C6 (code_bug): starting a new timer while a tick is already scheduled
does not cancel the previous schedule.  After `set_timer` twice in a row,
two `_tick_timer` callbacks are pending concurrently (both chains keep
decrementing the shared countdown). -/
theorem c6_timer_stacking :
    (set_timer 1 app0).pendingTicks = 1 ∧
      (set_timer 1 (set_timer 1 app0)).pendingTicks = 2 := by
  constructor <;> rfl

theorem fires_add (a b : Nat) (s : AppState) :
    fires (a + b) s = fires b (fires a s) := by
  induction a generalizing s with
  | zero => simp [fires]
  | succ a ih =>
    have : a + 1 + b = (a + b) + 1 := by omega
    rw [this]
    simp only [fires]
    rw [ih]

theorem fires_stuck (j : Nat) (s : AppState) (h : s.pendingTicks = 0) :
    fires j s = s := by
  induction j with
  | zero => rfl
  | succ j ih =>
    simp only [fires, fire_tick, h]
    exact ih

theorem fires_run (k : Nat) : ∀ (s : AppState), s.pendingTicks = 1 →
    (k : Int) ≤ s.remaining →
    fires k s = { s with remaining := s.remaining - k, pendingTicks := 1 } := by
  induction k with
  | zero =>
    intro s h1 _
    cases s
    simp_all [fires]
  | succ k ih =>
    intro s h1 h2
    simp only [fires, fire_tick, h1, tick_timer]
    have hr : ¬ s.remaining ≤ 0 := by push_cast at h2 ⊢; omega
    rw [if_neg (by simpa using hr)]
    rw [ih _ rfl (by push_cast at h2 ⊢; omega)]
    congr 1
    push_cast
    ring

theorem c7_tick_total (sec : Nat) (s : AppState) (hpos : 0 < sec)
    (hp : s.pendingTicks = 0) (hf : s.finishedCount = 0) :
    (∀ k : Nat, k < sec →
        (fires k (start_ticking (sec : Int) s)).pendingTicks = 1 ∧
        (fires k (start_ticking (sec : Int) s)).finishedCount = 0 ∧
        (fires k (start_ticking (sec : Int) s)).remaining = (sec : Int) - 1 - k) ∧
    (fires sec (start_ticking (sec : Int) s)).remaining = 0 ∧
    (fires sec (start_ticking (sec : Int) s)).pendingTicks = 0 ∧
    (fires sec (start_ticking (sec : Int) s)).finishedCount = 1 ∧
    (fires sec (start_ticking (sec : Int) s)).status = Status.timerFinished ∧
    (∀ j : Nat, fires (sec + j) (start_ticking (sec : Int) s) =
        fires sec (start_ticking (sec : Int) s)) := by
  set s0 := start_ticking (sec : Int) s with hs0
  have hstart : s0 =
      { s with remaining := (sec : Int) - 1, pendingTicks := s.pendingTicks + 1 } := by
    rw [hs0]
    simp only [start_ticking, tick_timer]
    rw [if_neg (by omega)]
  have hrun : ∀ k : Nat, (k : Int) ≤ (sec : Int) - 1 →
      fires k s0 =
      { s with remaining := (sec : Int) - 1 - k, pendingTicks := 1 } := by
    intro k hk
    rw [hstart, fires_run k _ (by simp [hp]) (by simpa using hk)]
  have hfin : fires sec s0 =
      { s with remaining := 0, pendingTicks := 0,
               status := Status.timerFinished, finishedCount := s.finishedCount + 1 } := by
    have h1 : fires sec s0 = fire_tick (fires (sec - 1) s0) := by
      conv_lhs => rw [show sec = (sec - 1) + 1 by omega]
      rw [fires_add]
      simp [fires]
    rw [h1, hrun (sec - 1) (by omega)]
    simp only [fire_tick, tick_timer]
    rw [if_pos (by omega)]
    congr 1
    omega
  refine ⟨?_, ?_, ?_, ?_, ?_, ?_⟩
  · intro k hk
    rw [hrun k (by omega)]
    simp [hf]
  · rw [hfin]
  · rw [hfin]
  · rw [hfin]; simp [hf]
  · rw [hfin]
  · intro j
    rw [fires_add, fires_stuck j _ (by rw [hfin])]

/-- C7 (confirmed): `set_timer` runs the `_tick_timer` body once
synchronously (decrementing to `sec - 1` and scheduling the first
callback); after that, firing the scheduled tick exactly `sec` times
drives the countdown to 0 with exactly one scheduled tick pending at
every intermediate point, and the final firing reports the finished
status exactly once, reschedules nothing, and further event-loop turns
change nothing (running, read off as having a scheduled tick, flips to
false exactly once). -/
theorem c7_timer_thm (sec : Nat) (s : AppState) (hpos : 0 < sec)
    (hp : s.pendingTicks = 0) (hf : s.finishedCount = 0) :
    (∀ k : Nat, k < sec →
        (fires k (start_ticking (sec : Int) s)).pendingTicks = 1 ∧
        (fires k (start_ticking (sec : Int) s)).finishedCount = 0 ∧
        (fires k (start_ticking (sec : Int) s)).remaining = (sec : Int) - 1 - k) ∧
    (fires sec (start_ticking (sec : Int) s)).remaining = 0 ∧
    (fires sec (start_ticking (sec : Int) s)).pendingTicks = 0 ∧
    (fires sec (start_ticking (sec : Int) s)).finishedCount = 1 ∧
    (fires sec (start_ticking (sec : Int) s)).status = Status.timerFinished ∧
    (∀ j : Nat, fires (sec + j) (start_ticking (sec : Int) s) =
        fires sec (start_ticking (sec : Int) s)) :=
  c7_tick_total sec s hpos hp hf

/-- Witness for `c7_timer_thm` at `sec = 3` on the fresh state. -/
theorem c7_timer_thm_witness :
    (fires 3 (start_ticking (3 : Int) app0)).remaining = 0 ∧
    (fires 3 (start_ticking (3 : Int) app0)).pendingTicks = 0 ∧
    (fires 3 (start_ticking (3 : Int) app0)).finishedCount = 1 := by
  have h := c7_timer_thm 3 app0 (by decide) (by rfl) (by rfl)
  exact ⟨h.2.1, h.2.2.1, h.2.2.2.1⟩

theorem chunk3_flatten : ∀ l : List Str, (chunk3 l).flatten = l
  | [] => by simp [chunk3]
  | [a] => by simp [chunk3]
  | [a, b] => by simp [chunk3]
  | a :: b :: c :: rest => by
    simp [chunk3, chunk3_flatten rest]

theorem chunk3_group_len : ∀ l : List Str, ∀ g ∈ chunk3 l, 0 < g.length ∧ g.length ≤ 3
  | [] => by simp [chunk3]
  | [a] => by intro g hg; simp [chunk3] at hg; simp [hg]
  | [a, b] => by intro g hg; simp [chunk3] at hg; simp [hg]
  | a :: b :: c :: rest => by
    intro g hg
    simp only [chunk3, List.mem_cons] at hg
    rcases hg with h | h
    · simp [h]
    · exact chunk3_group_len rest g h

theorem chunk3_full_groups : ∀ l : List Str, ∀ g ∈ (chunk3 l).dropLast, g.length = 3
  | [] => by simp [chunk3]
  | [a] => by simp [chunk3]
  | [a, b] => by simp [chunk3]
  | a :: b :: c :: rest => by
    intro g hg
    cases hrest : chunk3 rest with
    | nil => rw [chunk3, hrest] at hg; simp at hg
    | cons x xs =>
      rw [chunk3, hrest, List.dropLast_cons₂, ← hrest, List.mem_cons] at hg
      rcases hg with h | h
      · simp [h]
      · exact chunk3_full_groups rest g (by rw [hrest]; rw [hrest] at h; exact h)

theorem dropWhile_idem (p : Char → Bool) (l : List Char) :
    (l.dropWhile p).dropWhile p = l.dropWhile p := by
  induction l with
  | nil => simp
  | cons a l ih =>
    by_cases h : p a
    · simpa [List.dropWhile_cons, h] using ih
    · simp [List.dropWhile_cons, h]

theorem rstrip_idem (l : Str) : rstrip (rstrip l) = rstrip l := by
  simp [rstrip, dropWhile_idem]

theorem rstrip_blank (l : Str) (h : isBlankLine (rstrip l) = true) :
    isBlankLine l = true := by
  simp only [isBlankLine, List.all_eq_true] at h ⊢
  intro x hx
  have hx2 : x ∈ l.reverse := List.mem_reverse.mpr hx
  rw [← List.takeWhile_append_dropWhile (p := pySpace) (l := l.reverse)] at hx2
  rcases List.mem_append.mp hx2 with h1 | h1
  · exact List.mem_takeWhile_imp h1
  · exact h x (by simpa [rstrip] using h1)

/-- The haiku source lines used by the C9 concrete counterexample: a line
with a leading space, two plain lines, a whitespace-only line, and one
trailing line beyond the last full triple. -/
def c9raw : List Str :=
  [" a".toList, "b".toList, "  ".toList, "c".toList, "d".toList]

/-- C9 (corrected, counterexample): on this resource file the claim
fails twice over.  The blank line is ignored, but the trailing partial
group is NOT dropped — `lines[i:i+3]` appends it as a one-line haiku
(group lengths [3, 1]) — and lines are only right-stripped, so the first
loaded haiku keeps the leading space of its first line. -/
theorem c9_cex :
    load_haiku_lines c9raw = [" a\nb\nc".toList, "d".toList] ∧
    (chunk3 (haikuSourceLines c9raw)).map List.length = [3, 1] := by
  constructor <;> rfl

/-- C9 (corrected, amended): loading groups the non-blank, right-stripped
lines (leading whitespace is kept) into consecutive slices of three, and
a trailing partial group of one or two lines is kept as a short haiku:
the groups concatenate back to the preprocessed lines, every group has
between 1 and 3 lines, every group except possibly the last has exactly
3, every grouped line is non-blank and right-stripped, and the loaded
haikus are the newline-joins of the groups. -/
theorem c9_amended_thm (raw : List Str) :
    (chunk3 (haikuSourceLines raw)).flatten = haikuSourceLines raw ∧
    (∀ g ∈ chunk3 (haikuSourceLines raw), 0 < g.length ∧ g.length ≤ 3) ∧
    (∀ g ∈ (chunk3 (haikuSourceLines raw)).dropLast, g.length = 3) ∧
    (∀ l ∈ haikuSourceLines raw, isBlankLine l = false ∧ rstrip l = l) ∧
    load_haiku_lines raw =
      (chunk3 (haikuSourceLines raw)).map (List.intercalate ['\n']) := by
  refine ⟨chunk3_flatten _, chunk3_group_len _, chunk3_full_groups _, ?_, rfl⟩
  intro l hl
  simp only [haikuSourceLines, List.mem_map, List.mem_filter] at hl
  obtain ⟨l0, ⟨_, hb⟩, rfl⟩ := hl
  refine ⟨?_, rstrip_idem l0⟩
  by_contra hc
  have : isBlankLine (rstrip l0) = true := by
    cases h : isBlankLine (rstrip l0)
    · exact absurd h hc
    · rfl
  have := rstrip_blank l0 this
  simp [this] at hb

/-- Witness for `c9_amended_thm` at the concrete resource `c9raw`,
discharging the membership hypotheses at the first group. -/
theorem c9_amended_thm_witness :
    (chunk3 (haikuSourceLines c9raw)).flatten = haikuSourceLines c9raw ∧
    [" a".toList, "b".toList, "c".toList].length = 3 :=
  ⟨(c9_amended_thm c9raw).1,
   (c9_amended_thm c9raw).2.2.1 [" a".toList, "b".toList, "c".toList] (by decide)⟩

theorem fsLookup_fsSet (fs : List (Str × Str)) (fn : Str) (v : Str) :
    fsLookup (fsSet fs fn v) fn = some v := by
  simp [fsSet, fsLookup]

/-- C10 (confirmed): `save` writes `text.get("1.0", tk.END)`, which is
the buffer text followed by the Tk text widget phantom final newline;
opening the file just saved therefore yields a buffer holding the old
text plus one trailing newline, so the save-then-open round trip is not
the identity on the buffer text. -/
theorem c10_roundtrip_thm (s : AppState) (t : Tab) (fn : Str)
    (hsel : current_text s = some t) (hfn : t.filename = some fn) :
    (save_op s).2 = none ∧
    open_file (save_op s).1 fn =
      (new_tab (save_op s).1 (some fn) (t.content ++ ['\n']), none) ∧
    t.content ++ ['\n'] ≠ t.content := by
  have hs : save_op s = ({ s with fs := fsSet s.fs fn (text_get_end t),
                                  status := Status.saved fn }, none) := by
    simp [save_op, hsel, hfn]
  refine ⟨by rw [hs], ?_, ?_⟩
  · rw [hs]
    simp [open_file, fsLookup_fsSet, text_get_end]
  · intro h
    have := congrArg List.length h
    simp at this

/-- Witness for `c10_roundtrip_thm` on a tab named x.txt with buffer
text hi: the reopened buffer is hi plus a newline. -/
theorem c10_roundtrip_thm_witness :
    (save_op c8state).2 = none ∧
    open_file (save_op c8state).1 ("x.txt".toList) =
      (new_tab (save_op c8state).1 (some ("x.txt".toList)) ("hi\n".toList), none) :=
  have h := c10_roundtrip_thm c8state
    { filename := some ("x.txt".toList), content := "hi".toList }
    ("x.txt".toList) (by rfl) (by rfl)
  ⟨h.1, h.2.1⟩

theorem restore_loop_shape : ∀ (vs : List JVal) (s s1 : AppState),
    restore_loop s vs = (s1, none) →
    (s1 = s ∨ (0 < s1.tabs.length ∧ s1.sel = some (s1.tabs.length - 1))) ∧
    s1.fs = s.fs := by
  intro vs
  induction vs with
  | nil =>
    intro s s1 h
    simp only [restore_loop, Prod.mk.injEq] at h
    obtain ⟨rfl, -⟩ := h
    simp
  | cons v vs ih =>
    intro s s1 h
    match v with
    | JVal.jstr fn =>
      simp only [restore_loop] at h
      cases hfs : fsLookup s.fs fn with
      | some c =>
        rw [hfs] at h
        have h2 := ih _ _ h
        refine ⟨?_, by rw [h2.2]; simp [new_tab]⟩
        rcases h2.1 with h3 | h3
        · right
          subst h3
          simp [new_tab]
        · right; exact h3
      | none =>
        rw [hfs] at h
        exact ih _ _ h
    | JVal.jarr xs => simp [restore_loop] at h
    | JVal.jnum n => simp [restore_loop] at h
    | JVal.jbool b => simp [restore_loop] at h
    | JVal.jnull => simp [restore_loop] at h

/-- C5 (corrected, counterexample): closing the last open tab leaves the
notebook with zero documents — `close_tab` creates no replacement blank
document — and the subsequent query for the active document fails. -/
theorem c5_cex :
    (close_tab c8state).tabs = [] ∧ current_text (close_tab c8state) = none := by
  constructor <;> rfl

/-- C5 (corrected, amended): the one-document invariant is restored only
at startup: whenever `_load_tabs` completes without raising on a session
whose notebook started empty, at least one tab exists (a blank one is
created if none was restored) and the active-document query succeeds.
`close_tab` itself does not re-establish the invariant (see the
counterexample). -/
theorem c5_amended_thm (storage : Option Str) (s r : AppState)
    (hstart : s.tabs = []) (hok : load_tabs storage s = (r, none)) :
    0 < r.tabs.length ∧ ∃ t, current_text r = some t := by
  simp only [load_tabs] at hok
  split at hok
  · simp at hok
  · rename_i vs heq
    split at hok
    · simp at hok
    · rename_i s1 heq2
      obtain ⟨hshape, -⟩ := restore_loop_shape vs s s1 heq2
      simp only [Prod.mk.injEq] at hok
      obtain ⟨hr, -⟩ := hok
      rw [← hr]
      rcases hshape with heqs | ⟨hlen, hsel⟩
      · have hempty : s1.tabs.isEmpty = true := by
          rw [heqs, hstart]; rfl
        rw [hempty, if_pos rfl]
        refine ⟨by simp [new_tab], ?_⟩
        refine ⟨{ filename := none, content := [] }, ?_⟩
        simp [current_text, new_tab, heqs, hstart]
      · have hne : s1.tabs.isEmpty = false := by
          cases h : s1.tabs.isEmpty
          · rfl
          · rw [List.isEmpty_iff] at h; rw [h] at hlen; simp at hlen
        rw [hne]
        simp only [Bool.false_eq_true, if_false]
        refine ⟨hlen, ?_⟩
        cases hget : s1.tabs.get? (s1.tabs.length - 1) with
        | some t =>
          refine ⟨t, ?_⟩
          simp only [current_text, hsel]
          exact hget
        | none =>
          rw [List.get?_eq_none] at hget
          omega

/-- Witness for `c5_amended_thm`: starting with no session file and no
tabs, `_load_tabs` ends with one (blank) tab and an active document. -/
theorem c5_amended_thm_witness :
    0 < (load_tabs none app0).1.tabs.length ∧
      ∃ t, current_text (load_tabs none app0).1 = some t :=
  c5_amended_thm none app0 (load_tabs none app0).1 (by rfl) (by rfl)

/-- After `os.remove`, the file can no longer be found. -/
theorem fsLookup_fsErase (fs : List (Str × Str)) (fn : Str) :
    fsLookup (fsErase fs fn) fn = none := by
  induction fs with
  | nil => rfl
  | cons p rest ih =>
    by_cases h : p.1 = fn
    · simpa [fsErase, h] using ih
    · simpa [fsErase, fsLookup, h] using ih

/-- The C1 counterexample state: the haiku frame is collecting for the
pending target x.txt (whose file exists), and the three entry lines
are a, b and c — one word each, far outside the required ranges. -/
def c1state : AppState :=
  { c8state with
    pending := some { filename := some ("x.txt".toList), content := "hi".toList },
    frameVisible := true,
    e1 := "a".toList, e2 := "b".toList, e3 := "c".toList }

/-- C1 (corrected, counterexample): with invalid lines (word counts
1/1/1) and the target file present, `_submit` does not fail with
`InvalidHaiku` and does not leave the state unchanged — it completes the
deletion: no exception, the result pane is shown (the Completed display),
the backing file is removed and the tab is closed.  The word-count bounds
are enforced only by `_validate` disabling the button in the view. -/
theorem c1_cex :
    haikuValidB c1state.e1 c1state.e2 c1state.e3 = false ∧
    (submit c1state).2 = none ∧
    (submit c1state).1.resultShown = true ∧
    fsLookup (submit c1state).1.fs ("x.txt".toList) = none ∧
    (submit c1state).1.tabs = [] := by
  refine ⟨by rfl, by rfl, by rfl, by rfl, by rfl⟩

/-- C1 (corrected, amended): the bounds [3,5]/[4,7]/[3,5] are enforced
only by the view layer — `_validate` enables the submit button exactly
when the three word counts are within bounds — while `_submit` itself
performs no validation: whenever a pending target with an existing
backing file is set, submitting (with whatever lines are present)
completes the deletion — removes the file, shows the result, and closes
a tab. -/
theorem c1_amended_thm :
    (∀ s : AppState, (validate s).okEnabled = true ↔
      ((3 ≤ wordCount s.e1 ∧ wordCount s.e1 ≤ 5) ∧
       (4 ≤ wordCount s.e2 ∧ wordCount s.e2 ≤ 7) ∧
       (3 ≤ wordCount s.e3 ∧ wordCount s.e3 ≤ 5))) ∧
    (∀ (s : AppState) (t : Tab) (fn : Str) (i : Nat),
      s.pending = some t → t.filename = some fn →
      (fsLookup s.fs fn).isSome → s.sel = some i → i < s.tabs.length →
      (submit s).2 = none ∧
      fsLookup (submit s).1.fs fn = none ∧
      (submit s).1.resultShown = true ∧
      (submit s).1.tabs.length + 1 = s.tabs.length) := by
  constructor
  · intro s
    simp [validate, haikuValidB, and_assoc]
  · intro s t fn i hp hf hlk hsel hlen
    obtain ⟨c, hc⟩ := Option.isSome_iff_exists.mp hlk
    simp only [submit, confirm_delete, hide_frame, hp, hf, hc]
    simp only [close_tab, show_result, hsel]
    refine ⟨trivial, fsLookup_fsErase s.fs fn, trivial, ?_⟩
    show (s.tabs.eraseIdx i).length + 1 = s.tabs.length
    exact List.length_eraseIdx_add_one hlen

/-- The C2 counterexample state: a perfectly valid haiku is entered, and
the pending target is the tab for x.txt, but the backing file is
already gone from the data directory. -/
def c2state : AppState :=
  { app0 with
    tabs := [{ filename := some ("x.txt".toList), content := "hi".toList }],
    sel := some 0,
    frameVisible := true,
    pending := some { filename := some ("x.txt".toList), content := "hi".toList },
    e1 := "old pond ah".toList,
    e2 := "a frog jumps right in".toList,
    e3 := "splash then silence".toList }

/-- The same state with the backing file present, for the success
branch. -/
def c2state2 : AppState :=
  { c2state with fs := [(("x.txt".toList), "hi\n".toList)] }

/-- C2 (corrected, counterexample): when `os.remove` fails because the
file is already gone, the error is NOT surfaced as a `DeleteFailed`
status and the gate does not remain collecting: the
`FileNotFoundError` escapes `_confirm_delete` uncaught (there is no
try/except), the status bar is untouched, and the haiku frame was
already hidden by `_submit` before the callback ran.  The document does
remain in the notebook. -/
theorem c2_cex :
    haikuValidB c2state.e1 c2state.e2 c2state.e3 = true ∧
    submit c2state = (hide_frame c2state, some PyErr.fileNotFound) ∧
    (submit c2state).1.status = c2state.status ∧
    (submit c2state).1.tabs = c2state.tabs ∧
    (submit c2state).1.frameVisible = false := by
  refine ⟨by rfl, by rfl, by rfl, by rfl, by rfl⟩

/-- `close_tab` only touches the notebook, not the data directory. -/
theorem close_tab_fs (s : AppState) : (close_tab s).fs = s.fs := by
  unfold close_tab
  cases s.sel <;> rfl

/-- C2 (corrected, amended): when removal of the pending target backing
file fails, the exception propagates out of the callback with no state
mutated by it — the document is not removed from the notebook, no status
is recorded, and the haiku frame stays hidden (it was hidden by
`_submit` before the delete was attempted); only on successful removal
are the file and a tab removed, the file-deleted status recorded, and
the result shown. -/
theorem c2_amended_thm (s : AppState) (t : Tab) (fn : Str)
    (hp : s.pending = some t) (hf : t.filename = some fn) :
    (fsLookup s.fs fn = none →
      submit s = (hide_frame s, some PyErr.fileNotFound)) ∧
    (∀ c, fsLookup s.fs fn = some c →
      (submit s).2 = none ∧
      fsLookup (submit s).1.fs fn = none ∧
      (submit s).1.status = Status.fileDeleted ∧
      (submit s).1.resultShown = true) := by
  constructor
  · intro hnone
    simp only [submit, confirm_delete, hide_frame, hp, hf, hnone]
  · intro c hc
    simp only [submit, confirm_delete, hide_frame, hp, hf, hc]
    refine ⟨trivial, ?_, rfl, rfl⟩
    simp [show_result, close_tab_fs, fsLookup_fsErase]

/-- Witness for `c2_amended_thm` on the success branch at `c2state2`. -/
theorem c2_amended_thm_witness :
    (submit c2state2).2 = none ∧ (submit c2state2).1.status = Status.fileDeleted :=
  have h := (c2_amended_thm c2state2
    { filename := some ("x.txt".toList), content := "hi".toList }
    ("x.txt".toList) rfl rfl).2 ("hi\n".toList) (by rfl)
  ⟨h.1, h.2.2.1⟩

/-- Witness for `c1_amended_thm`: the validator instantiated at the
invalid entry lines of `c1state`, and the unvalidated submit completing
at `c2state2`. -/
theorem c1_amended_thm_witness :
    ((validate c1state).okEnabled = true ↔
      ((3 ≤ wordCount c1state.e1 ∧ wordCount c1state.e1 ≤ 5) ∧
       (4 ≤ wordCount c1state.e2 ∧ wordCount c1state.e2 ≤ 7) ∧
       (3 ≤ wordCount c1state.e3 ∧ wordCount c1state.e3 ≤ 5))) ∧
    (submit c2state2).2 = none :=
  ⟨c1_amended_thm.1 c1state,
   (c1_amended_thm.2 c2state2
     { filename := some ("x.txt".toList), content := "hi".toList }
     ("x.txt".toList) 0 rfl rfl (by rfl) rfl (by decide)).1⟩

theorem char_valid_nat (c : Char) :
    c.toNat < 0xd800 ∨ (0xdfff < c.toNat ∧ c.toNat < 0x110000) := by
  rcases c.valid with h | ⟨h1, h2⟩
  · left
    exact h
  · right
    exact ⟨h1, h2⟩

theorem hexVal_hexDigitChar (n : Nat) (h : n < 16) :
    hexVal (hexDigitChar n) = some n := by
  interval_cases n <;> rfl


theorem parseStrBody_quote (rest : Str) :
    parseStrBody ('"' :: rest) = some ([], rest) := by
  rw [parseStrBody.eq_def]
  simp

theorem parseStrBody_lit (c : Char) (rest : Str)
    (h1 : ¬ c = '"') (h2 : ¬ c = '\\') (h3 : 0x20 ≤ c.toNat) :
    parseStrBody (c :: rest) = (parseStrBody rest).map (fun p => (c :: p.1, p.2)) := by
  rw [parseStrBody.eq_def]
  simp only []
  rw [if_neg h1, if_neg h2, if_pos h3]

theorem parseStrBody_esc (k ch : Char) (rest2 : Str)
    (hk : ¬ k = 'u') (h : decodeEsc k = some ch) :
    parseStrBody ('\\' :: k :: rest2) =
      (parseStrBody rest2).map (fun p => (ch :: p.1, p.2)) := by
  rw [parseStrBody.eq_def]
  simp only [if_true]
  rw [if_neg hk, h]
  simp

theorem parseStrBody_escu (ch : Char) (used : Nat) (rest2 : Str)
    (h : parseU rest2 = some (ch, used)) :
    parseStrBody ('\\' :: 'u' :: rest2) =
      (parseStrBody (rest2.drop used)).map (fun p => (ch :: p.1, p.2)) := by
  rw [parseStrBody.eq_def]
  simp only [if_true]
  rw [h]
  simp

theorem parseHex4_hex4 (n : Nat) (tail : Str) (h : n < 0x10000) :
    parseHex4 (hex4 n ++ tail) = some (n, tail) := by
  simp only [hex4, List.cons_append, List.nil_append]
  rw [parseHex4.eq_def]
  simp only []
  rw [hexVal_hexDigitChar _ (by omega), hexVal_hexDigitChar _ (by omega),
    hexVal_hexDigitChar _ (by omega), hexVal_hexDigitChar _ (by omega)]
  simp only []
  have hn : ((n / 4096 % 16 * 16 + n / 256 % 16) * 16 + n / 16 % 16) * 16 + n % 16 = n := by
    omega
  rw [hn]

theorem parseU_hex4 (c : Char) (tail : Str)
    (h : c.toNat < 0xd800 ∨ (0xe000 ≤ c.toNat ∧ c.toNat ≤ 0xffff)) :
    parseU (hex4 c.toNat ++ tail) = some (c, 4) := by
  rw [parseU.eq_def, parseHex4_hex4 _ _ (by omega)]
  simp only []
  rw [if_pos (by omega : c.toNat < 0xd800 ∨ 0xe000 ≤ c.toNat), Char.ofNat_toNat]

theorem parseU_surr (c : Char) (tail : Str) (h : 0x10000 ≤ c.toNat) :
    parseU (hex4 (0xd800 + (c.toNat - 0x10000) / 0x400) ++
      ('\\' :: 'u' :: (hex4 (0xdc00 + (c.toNat - 0x10000) % 0x400) ++ tail))) = some (c, 10) := by
  have hv := char_valid_nat c
  rw [parseU.eq_def,
    parseHex4_hex4 (0xd800 + (c.toNat - 0x10000) / 0x400)
      ('\\' :: 'u' :: (hex4 (0xdc00 + (c.toNat - 0x10000) % 0x400) ++ tail)) (by omega)]
  simp only []
  rw [if_neg (by omega), if_pos (by omega)]
  simp only [if_true]
  rw [parseHex4_hex4 (0xdc00 + (c.toNat - 0x10000) % 0x400) tail (by omega)]
  simp only []
  rw [if_pos (by omega : 0xdc00 ≤ 0xdc00 + (c.toNat - 0x10000) % 0x400 ∧
      0xdc00 + (c.toNat - 0x10000) % 0x400 ≤ 0xdfff)]
  have harg : 0x10000 + (0xd800 + (c.toNat - 0x10000) / 0x400 - 0xd800) * 0x400
      + (0xdc00 + (c.toNat - 0x10000) % 0x400 - 0xdc00) = c.toNat := by omega
  rw [harg, Char.ofNat_toNat]

theorem hex4_drop4 (n : Nat) (x : Str) : (hex4 n ++ x).drop 4 = x := by
  simp [hex4]

theorem surr_drop10 (a b : Nat) (x : Str) :
    (hex4 a ++ ('\\' :: 'u' :: (hex4 b ++ x))).drop 10 = x := by
  simp [hex4]

theorem parseStrBody_enc : ∀ (s rest : Str),
    parseStrBody (encStrBody s ++ '"' :: rest) = some (s, rest)
  | [], rest => by
    simp only [encStrBody, List.nil_append]
    exact parseStrBody_quote rest
  | c :: s, rest => by
    have ih := parseStrBody_enc s rest
    simp only [encStrBody, List.append_assoc]
    by_cases h1 : c = '"'
    · subst h1
      simp only [escChar, if_true, if_pos rfl, List.cons_append, List.nil_append]
      rw [parseStrBody_esc '"' '"' _ (by decide) (by decide), ih]
      rfl
    · by_cases h2 : c = '\\'
      · subst h2
        simp only [escChar, if_true, if_neg (by decide : ¬('\\' : Char) = '"'), if_pos rfl,
          List.cons_append, List.nil_append]
        rw [parseStrBody_esc '\\' '\\' _ (by decide) (by decide), ih]
        rfl
      · by_cases h3 : c = '\n'
        · subst h3
          simp only [escChar, if_true, if_neg (by decide : ¬('\n' : Char) = '"'),
            if_neg (by decide : ¬('\n' : Char) = '\\'), if_pos rfl,
            List.cons_append, List.nil_append]
          rw [parseStrBody_esc 'n' '\n' _ (by decide) (by decide), ih]
          rfl
        · by_cases h4 : c = '\t'
          · subst h4
            simp only [escChar, if_true, if_neg (by decide : ¬('\t' : Char) = '"'),
              if_neg (by decide : ¬('\t' : Char) = '\\'),
              if_neg (by decide : ¬('\t' : Char) = '\n'), if_pos rfl,
              List.cons_append, List.nil_append]
            rw [parseStrBody_esc 't' '\t' _ (by decide) (by decide), ih]
            rfl
          · by_cases h5 : c = '\r'
            · subst h5
              simp only [escChar, if_true, if_neg (by decide : ¬('\r' : Char) = '"'),
                if_neg (by decide : ¬('\r' : Char) = '\\'),
                if_neg (by decide : ¬('\r' : Char) = '\n'),
                if_neg (by decide : ¬('\r' : Char) = '\t'), if_pos rfl,
                List.cons_append, List.nil_append]
              rw [parseStrBody_esc 'r' '\r' _ (by decide) (by decide), ih]
              rfl
            · by_cases h6 : c.toNat = 8
              · have hc : c = Char.ofNat 8 := by
                  rw [← Char.ofNat_toNat c, h6]
                simp only [escChar, if_neg h1, if_neg h2, if_neg h3, if_neg h4, if_neg h5,
                  if_pos h6, List.cons_append, List.nil_append]
                rw [parseStrBody_esc 'b' (Char.ofNat 8) _ (by decide) (by decide), ih]
                rw [← hc]
                rfl
              · by_cases h7 : c.toNat = 12
                · have hc : c = Char.ofNat 12 := by
                    rw [← Char.ofNat_toNat c, h7]
                  simp only [escChar, if_neg h1, if_neg h2, if_neg h3, if_neg h4, if_neg h5,
                    if_neg h6, if_pos h7, List.cons_append, List.nil_append]
                  rw [parseStrBody_esc 'f' (Char.ofNat 12) _ (by decide) (by decide), ih]
                  rw [← hc]
                  rfl
                · by_cases h8 : c.toNat < 0x20 ∨ (0x7f ≤ c.toNat ∧ c.toNat ≤ 0xffff)
                  · have hval := char_valid_nat c
                    simp only [escChar, if_neg h1, if_neg h2, if_neg h3, if_neg h4, if_neg h5,
                      if_neg h6, if_neg h7, if_pos h8, List.cons_append, List.append_assoc]
                    rw [parseStrBody_escu c 4 _ (parseU_hex4 c _ (by omega)),
                      hex4_drop4, ih]
                    rfl
                  · by_cases h9 : 0x10000 ≤ c.toNat
                    · simp only [escChar, if_neg h1, if_neg h2, if_neg h3, if_neg h4,
                        if_neg h5, if_neg h6, if_neg h7, if_neg h8, if_pos h9,
                        List.cons_append, List.append_assoc, List.nil_append]
                      rw [parseStrBody_escu c 10 _ (parseU_surr c _ h9),
                        surr_drop10, ih]
                      rfl
                    · have hval := char_valid_nat c
                      simp only [escChar, if_neg h1, if_neg h2, if_neg h3, if_neg h4,
                        if_neg h5, if_neg h6, if_neg h7, if_neg h8, if_neg h9,
                        List.cons_append, List.nil_append]
                      rw [parseStrBody_lit c _ h1 h2 (by omega), ih]
                      rfl

theorem skipWs_cons (c : Char) (r : Str) (h : jsonWs c = false) :
    skipWs (c :: r) = c :: r := by
  simp [skipWs, List.dropWhile_cons, h]

theorem parseJVal_str (fuel : Nat) (x rest : Str) :
    parseJVal (fuel + 1) (encString x ++ rest) = some (JVal.jstr x, rest) := by
  simp only [encString, List.cons_append, List.append_assoc, List.nil_append]
  rw [parseJVal.eq_def]
  simp only [if_true]
  rw [parseStrBody_enc x rest]
  rfl

theorem skipWs_encElems_cons (y : Str) (ys : List Str) (w : Str) :
    skipWs (encElems (y :: ys) ++ w) = encElems (y :: ys) ++ w := by
  cases ys with
  | nil =>
    simp only [encElems, encString, List.cons_append, List.append_assoc]
    exact skipWs_cons '"' _ (by decide)
  | cons z zs =>
    simp only [encElems, encString, List.cons_append, List.append_assoc]
    exact skipWs_cons '"' _ (by decide)

theorem parseLoop_enc : ∀ (xs : List Str) (x : Str) (rest : Str) (fuel : Nat),
    xs.length + 2 ≤ fuel →
    parseLoop fuel (encElems (x :: xs) ++ ']' :: rest) =
      some ((x :: xs).map JVal.jstr, rest)
  | [], x, rest, fuel, h => by
    obtain ⟨f, rfl⟩ : ∃ f, fuel = f + 2 := ⟨fuel - 2, by omega⟩
    simp only [encElems]
    rw [parseLoop.eq_def]
    simp only []
    rw [parseJVal_str f x (']' :: rest)]
    simp only []
    rw [skipWs_cons ']' rest (by decide)]
    rfl
  | y :: ys, x, rest, fuel, h => by
    obtain ⟨f, rfl⟩ : ∃ f, fuel = f + 2 := ⟨fuel - 2, by omega⟩
    have ih := parseLoop_enc ys y rest (f + 1) (by
      simp only [List.length_cons] at h
      omega)
    simp only [encElems, List.append_assoc, List.cons_append]
    rw [parseLoop.eq_def]
    simp only []
    rw [parseJVal_str f x (',' :: ' ' :: (encElems (y :: ys) ++ ']' :: rest))]
    simp only []
    rw [skipWs_cons ',' _ (by decide)]
    have hsp : skipWs (' ' :: (encElems (y :: ys) ++ ']' :: rest)) =
        encElems (y :: ys) ++ ']' :: rest := by
      simp only [skipWs, List.dropWhile_cons]
      rw [if_pos (by decide)]
      exact skipWs_encElems_cons y ys (']' :: rest)
    show (parseLoop (f + 1) (skipWs (' ' :: (encElems (y :: ys) ++ ']' :: rest)))).map
        (fun p => (JVal.jstr x :: p.1, p.2)) =
      some ((x :: y :: ys).map JVal.jstr, rest)
    rw [hsp, ih]
    rfl

theorem encString_len (x : Str) : 2 ≤ (encString x).length := by
  simp [encString]

theorem encElems_ge : ∀ xs : List Str, xs.length ≤ (encElems xs).length
  | [] => by simp [encElems]
  | [x] => by
    have h1 := encString_len x
    simp only [encElems, List.length_cons, List.length_nil]
    omega
  | x :: y :: ys => by
    have h1 := encString_len x
    have h2 := encElems_ge (y :: ys)
    simp only [encElems, List.length_append, List.length_cons] at h2 ⊢
    omega

theorem parseJVal_dump (xs : List Str) (fuel : Nat) (h : xs.length + 3 ≤ fuel) :
    parseJVal fuel (json_dump_strlist xs) = some (JVal.jarr (xs.map JVal.jstr), []) := by
  obtain ⟨f, rfl⟩ : ∃ f, fuel = f + 1 := ⟨fuel - 1, by omega⟩
  simp only [json_dump_strlist, List.cons_append]
  rw [parseJVal.eq_def]
  simp only []
  rw [if_neg (by decide : ¬('[' : Char) = '"')]
  simp only [if_true]
  cases xs with
  | nil =>
    simp only [encElems, List.nil_append]
    rw [skipWs_cons ']' [] (by decide)]
    rfl
  | cons x xs =>
    rw [skipWs_encElems_cons x xs [']']]
    have hshape : ∃ t, encElems (x :: xs) = '"' :: t := by
      cases xs with
      | nil =>
        simp only [encElems, encString, List.cons_append, List.append_assoc]
        exact ⟨_, rfl⟩
      | cons z zs =>
        simp only [encElems, encString, List.cons_append, List.append_assoc]
        exact ⟨_, rfl⟩
    obtain ⟨t, ht⟩ := hshape
    rw [ht]
    simp only [List.cons_append]
    show Option.map (fun p => (JVal.jarr p.1, p.2)) (parseLoop f ('"' :: (t ++ [']']))) =
      some (JVal.jarr ((x :: xs).map JVal.jstr), [])
    rw [show ('"' :: (t ++ [']']) : Str) = encElems (x :: xs) ++ ']' :: [] from by
      rw [ht]; simp]
    rw [parseLoop_enc xs x [] f (by
      simp only [List.length_cons] at h
      omega)]
    rfl

theorem json_load_dump (xs : List Str) :
    json_load (json_dump_strlist xs) = some (JVal.jarr (xs.map JVal.jstr)) := by
  have hlen : xs.length ≤ (encElems xs).length := encElems_ge xs
  simp only [json_load]
  rw [show skipWs (json_dump_strlist xs) = json_dump_strlist xs from by
    simp only [json_dump_strlist, List.cons_append]
    exact skipWs_cons '[' _ (by decide)]
  rw [parseJVal_dump xs _ (by
    simp only [json_dump_strlist, List.length_cons, List.length_append]
    omega)]
  rfl

theorem restore_loop_all : ∀ (xs : List Str) (s : AppState),
    (∀ x ∈ xs, (fsLookup s.fs x).isSome) →
    ∃ s1, restore_loop s (xs.map JVal.jstr) = (s1, none) ∧
      s1.tabs.filterMap Tab.filename = s.tabs.filterMap Tab.filename ++ xs ∧
      s1.fs = s.fs ∧ s1.tabs.length = s.tabs.length + xs.length
  | [], s, _ => ⟨s, by simp [restore_loop]⟩
  | x :: xs, s, hex => by
    obtain ⟨c, hc⟩ := Option.isSome_iff_exists.mp (hex x (by simp))
    have hex2 : ∀ y ∈ xs, (fsLookup (new_tab s (some x) c).fs y).isSome := by
      intro y hy
      have : (new_tab s (some x) c).fs = s.fs := rfl
      rw [this]
      exact hex y (by simp [hy])
    obtain ⟨s1, h1, h2, h3, h4⟩ := restore_loop_all xs (new_tab s (some x) c) hex2
    refine ⟨s1, ?_, ?_, ?_, ?_⟩
    · simp only [List.map, restore_loop, hc]
      exact h1
    · rw [h2]
      simp [new_tab, List.filterMap_append]
    · rw [h3]
      rfl
    · rw [h4]
      simp [new_tab]
      omega

theorem c3_load_after_save (X : List Str) (s : AppState)
    (hsep : ∀ f ∈ X, ('/' : Char) ∉ f)
    (hex : ∀ x ∈ X, (fsLookup s.fs x).isSome)
    (h0 : s.tabs = []) :
    json_load (json_dump_strlist X) = some (JVal.jarr (X.map JVal.jstr)) ∧
    ∃ s1, load_tabs (some (json_dump_strlist X)) s = (s1, none) ∧
      s1.tabs.filterMap Tab.filename = X ∧
      on_close_record s1 = json_dump_strlist X := by
  refine ⟨json_load_dump X, ?_⟩
  obtain ⟨s1, h1, h2, h3, h4⟩ := restore_loop_all X s hex
  rw [h0] at h2 h4
  simp only [List.filterMap_nil, List.nil_append] at h2
  simp only [List.length_nil, Nat.zero_add] at h4
  simp only [load_tabs, json_load_dump X, valueIter]
  rw [h1]
  simp only []
  by_cases hX : X = []
  · subst hX
    have hemp : s1.tabs.isEmpty = true := by
      rw [List.isEmpty_iff]
      exact List.length_eq_zero.mp (by rw [h4]; rfl)
    rw [hemp]
    simp only [if_true]
    refine ⟨new_tab s1 none [], rfl, ?_, ?_⟩
    · simp [new_tab, List.filterMap_append, h2]
    · simp [on_close_record, new_tab, List.filterMap_append, h2]
  · have hemp : s1.tabs.isEmpty = false := by
      cases he : s1.tabs.isEmpty
      · rfl
      · rw [List.isEmpty_iff] at he
        rw [he] at h4
        simp only [List.length_nil] at h4
        exact absurd (List.length_eq_zero.mp h4.symm) hX
    rw [hemp]
    simp only [Bool.false_eq_true, if_false]
    exact ⟨s1, rfl, h2, by simp [on_close_record, h2]⟩

theorem c4_load_robust (s : AppState) :
    (load_tabs none s).2 = none ∧
    (∀ content : Str, json_load content = none →
      (load_tabs (some content) s).2 = none) ∧
    (load_tabs (some ('4' :: '2' :: [])) s).2 = some PyErr.typeError := by
  refine ⟨?_, ?_, ?_⟩
  · simp only [load_tabs, valueIter, restore_loop]
  · intro content hc
    simp only [load_tabs, hc, valueIter, restore_loop]
  · have h42 : json_load ('4' :: '2' :: []) = some (JVal.jnum 42) := by rfl
    simp only [load_tabs, h42, valueIter]

/-- Data directory contents for the C3 witness. -/
def c3app : AppState :=
  { app0 with fs := [(("a.md".toList), "hello\n".toList)] }

/-- C3 (confirmed): session round trip.  Saving a list of filenames X
writes `json.dump(X)`; `json.load` of that text yields exactly the array
of the strings of X (round-trip law, for any filenames, in particular
those with no path separators), the startup restore opens tabs whose
filenames are exactly X when all the files exist (no concurrent external
mutation), and writing the session again at shutdown reproduces the
stored text exactly (save of a load is a fixed point of storage). -/
theorem c3_roundtrip_thm (X : List Str) (s : AppState)
    (hsep : ∀ f ∈ X, ('/' : Char) ∉ f)
    (hex : ∀ x ∈ X, (fsLookup s.fs x).isSome)
    (h0 : s.tabs = []) :
    json_load (json_dump_strlist X) = some (JVal.jarr (X.map JVal.jstr)) ∧
    ∃ s1, load_tabs (some (json_dump_strlist X)) s = (s1, none) ∧
      s1.tabs.filterMap Tab.filename = X ∧
      on_close_record s1 = json_dump_strlist X :=
  c3_load_after_save X s hsep hex h0

/-- Witness for `c3_roundtrip_thm` at the one-file session a.md. -/
theorem c3_roundtrip_thm_witness :
    json_load (json_dump_strlist ["a.md".toList]) =
      some (JVal.jarr (["a.md".toList].map JVal.jstr)) ∧
    ∃ s1, load_tabs (some (json_dump_strlist ["a.md".toList])) c3app = (s1, none) ∧
      s1.tabs.filterMap Tab.filename = ["a.md".toList] ∧
      on_close_record s1 = json_dump_strlist ["a.md".toList] :=
  c3_roundtrip_thm ["a.md".toList] c3app (by decide) (by decide) (by rfl)

/-- C4 (corrected, counterexample): a session file whose content is the
json number 42 parses successfully, and startup then raises `TypeError`
at `for fname in files` — session load is not exception-free for every
persisted state. -/
theorem c4_cex :
    (load_tabs (some ('4' :: '2' :: [])) app0).2 = some PyErr.typeError := by rfl

/-- C4 (corrected, amended): session load never raises when the state
file is missing or its content fails json parsing (both are treated as
an empty list and startup proceeds); but content that parses as a
non-iterable json value — such as a number — makes startup raise
`TypeError` instead of being treated as malformed. -/
theorem c4_amended_thm (s : AppState) :
    (load_tabs none s).2 = none ∧
    (∀ content : Str, json_load content = none →
      (load_tabs (some content) s).2 = none) ∧
    (load_tabs (some ('4' :: '2' :: [])) s).2 = some PyErr.typeError :=
  c4_load_robust s

/-- Witness for `c4_amended_thm`: a missing state file and the
unparsable content consisting of a lone opening bracket both start up
without raising. -/
theorem c4_amended_thm_witness :
    (load_tabs none app0).2 = none ∧
    json_load ('[' :: []) = none ∧
    (load_tabs (some ('[' :: [])) app0).2 = none :=
  ⟨(c4_amended_thm app0).1, by rfl,
   (c4_amended_thm app0).2.1 ('[' :: []) (by rfl)⟩
